import Mathlib

/-!
Verification development for the rustlight renderer core.

The Rust sources are shallowly embedded: f32 arithmetic is idealised as
exact rational arithmetic (ℚ), except where finiteness of a scalar is
tested by the code itself, in which case the scalar is modelled by the
inductive type FScalar below.  Stateful code is modelled by explicit
state passing; fallible code and failed assertions return Option.
-/

namespace Rustlight

/-- Pixel color representation, from structure.rs: a triplet of components,
modelled over ℚ. -/
structure Color where
  r : ℚ
  g : ℚ
  b : ℚ
deriving DecidableEq, Repr

/-- Color::zero from structure.rs. -/
def Color.zero : Color := ⟨0, 0, 0⟩

/-- Color::one from structure.rs. -/
def Color.one : Color := ⟨1, 1, 1⟩

/-- Color::is_zero from structure.rs. -/
def Color.isZero (c : Color) : Bool :=
  c.r == 0 && c.g == 0 && c.b == 0

/-- Color::channel_max from structure.rs: r.max(g.max(b)). -/
def Color.channelMax (c : Color) : ℚ :=
  max c.r (max c.g c.b)

/-- Color::luminance from structure.rs:
r * 0.212671 + g * 0.715160 + b * 0.072169. -/
def Color.luminance (c : Color) : ℚ :=
  c.r * (212671 / 1000000) + c.g * (715160 / 1000000) + c.b * (72169 / 1000000)

/-- impl Add for Color (componentwise). -/
def Color.add (a c : Color) : Color := ⟨a.r + c.r, a.g + c.g, a.b + c.b⟩

/-- impl Sub for Color (componentwise). -/
def Color.sub (a c : Color) : Color := ⟨a.r - c.r, a.g - c.g, a.b - c.b⟩

/-- impl Mul of two Colors (componentwise). -/
def Color.mul (a c : Color) : Color := ⟨a.r * c.r, a.g * c.g, a.b * c.b⟩

/-- Multiplication of a Color by a scalar already known to be finite:
the then-branch of impl Mul of f32 for Color in structure.rs. -/
def Color.mulQ (c : Color) (q : ℚ) : Color := ⟨c.r * q, c.g * q, c.b * q⟩

/-- impl DivAssign of f32 for Color in structure.rs: componentwise division,
with no assertion. -/
def Color.divQ (c : Color) (q : ℚ) : Color := ⟨c.r / q, c.g / q, c.b / q⟩

instance : Add Color := ⟨Color.add⟩

instance : Sub Color := ⟨Color.sub⟩

instance : Mul Color := ⟨Color.mul⟩

/-- An f32 scalar as observed by the finiteness checks of structure.rs:
either a finite value, or one of the non-finite classes. -/
inductive FScalar where
  | fin (q : ℚ)
  | nan
  | posInf
  | negInf
deriving DecidableEq, Repr

/-- f32::is_finite on the scalar model. -/
def FScalar.isFinite : FScalar → Bool
  | .fin _ => true
  | _ => false

/-- impl Mul of f32 for Color in structure.rs: if the scalar is finite,
multiply componentwise, otherwise return the zero Color. -/
def Color.mulScalar (c : Color) (s : FScalar) : Color :=
  match s with
  | .fin q => ⟨c.r * q, c.g * q, c.b * q⟩
  | _ => Color.zero

/-- impl Div of f32 for Color in structure.rs: the code first asserts that
the scalar is finite, then asserts it is nonzero, then divides
componentwise.  A failed assertion is modelled as none. -/
def Color.divScalar (c : Color) (s : FScalar) : Option Color :=
  match s with
  | .fin q => if q = 0 then none else some ⟨c.r / q, c.g / q, c.b / q⟩
  | _ => none

/-- The inner Sampler collaborator of integrators/gradient/explicit.rs,
modelled as a deterministic stream of values together with a position. -/
structure StreamSampler where
  stream : ℕ → ℚ
  pos : ℕ

/-- Sampler::next on the stream model: return the current value and
advance. -/
def StreamSampler.next (s : StreamSampler) : ℚ × StreamSampler :=
  (s.stream s.pos, ⟨s.stream, s.pos + 1⟩)

/-- Sampler::next2d on the stream model: two successive next draws. -/
def StreamSampler.next2d (s : StreamSampler) : (ℚ × ℚ) × StreamSampler :=
  let (v1, s1) := s.next
  let (v2, s2) := s1.next
  ((v1, v2), s2)

/-- ReplaySampler from integrators/gradient/explicit.rs: an inner sampler,
a tape of previously drawn values, and a cursor. -/
structure ReplaySampler where
  sampler : StreamSampler
  random : List ℚ
  indice : ℕ

/-- ReplaySampler::generate: the leading assertion that the cursor does not
exceed the tape length is modelled as none; if the cursor is inside the
tape, return the taped value and advance; otherwise draw a fresh value
from the inner sampler, append it to the tape, advance, and return it. -/
def ReplaySampler.generate (s : ReplaySampler) : Option (ℚ × ReplaySampler) :=
  if s.indice ≤ s.random.length then
    if h : s.indice < s.random.length then
      some (s.random.get ⟨s.indice, h⟩, { s with indice := s.indice + 1 })
    else
      let (v, inner) := s.sampler.next
      some (v, { sampler := inner, random := s.random ++ [v], indice := s.indice + 1 })
  else
    none

/-- ReplaySampler::unregistered: a draw that bypasses the tape, taken
directly from the inner sampler. -/
def ReplaySampler.unregistered (s : ReplaySampler) : ℚ × ReplaySampler :=
  let (v, inner) := s.sampler.next
  (v, { s with sampler := inner })

/-- The cursor reset performed by compute_pixel between shift retraces:
the cursor is set to 0 and the tape is kept. -/
def ReplaySampler.rewind (s : ReplaySampler) : ReplaySampler :=
  { s with indice := 0 }

/-- n successive ReplaySampler::generate draws, collecting the returned
values; none if any draw fails its assertion. -/
def ReplaySampler.drawN : ℕ → ReplaySampler → Option (List ℚ × ReplaySampler)
  | 0, s => some ([], s)
  | n + 1, s =>
    match s.generate with
    | none => none
    | some (v, s2) =>
      match ReplaySampler.drawN n s2 with
      | none => none
      | some (vs, s3) => some (v :: vs, s3)

/-- Modelled from the spec: the four shift pixel offsets GRADIENT_ORDER,
(1,0), (0,1), (-1,0), (0,-1); the module that declares this constant is
not among the sources at hand. -/
def GRADIENT_ORDER : List (ℤ × ℤ) := [(1, 0), (0, 1), (-1, 0), (0, -1)]

/-- Modelled from the spec: the signed axis tag paired with each entry of
GRADIENT_ORDER. -/
inductive GradientDirection where
  | x (v : ℤ)
  | y (v : ℤ)
deriving DecidableEq, Repr

/-- Modelled from the spec: GRADIENT_DIRECTION, the axes X(+1), Y(+1),
X(-1), Y(-1) matching GRADIENT_ORDER entrywise. -/
def GRADIENT_DIRECTION : List GradientDirection := [.x 1, .y 1, .x (-1), .y (-1)]

/-- ColorGradient record of the gradient integrators: very direct light,
main value, and the four per-shift radiances and gradients. -/
structure ColorGradient where
  veryDirect : Color
  main : Color
  radiances : List Color
  gradients : List Color
deriving DecidableEq, Repr

/-- The survival filter of IntegratorGradientPathTracing::compute_pixel
when min_survival is configured: the survival probability is
(luminance / 0.1).min(1).max(min_survival), and the returned weight is
the reciprocal of the probability when the probability is 1 or at least
the unregistered draw u, and 0 otherwise.  Without min_survival the
weight is 1. -/
def survivalWeight (minSurvival : Option ℚ) (rootLum u : ℚ) : ℚ :=
  match minSurvival with
  | none => 1
  | some ms =>
    let probSurvival := max (min (rootLum / (1 / 10)) 1) ms
    if probSurvival = 1 ∨ probSurvival ≥ u then 1 / probSurvival else 0

/-- The configuration consulted by compute_pixel: the camera size (as the
signed integers the code compares against) and the optional survival
clamp. -/
structure GPTConfig where
  sizeX : ℤ
  sizeY : ℤ
  minSurvival : Option ℚ

/-- The bounds test compute_pixel applies to a shift pixel before
retracing: the shift is skipped when x < 0, x > size.x, y < 0 or
y > size.y. -/
def shiftOutside (cfg : GPTConfig) (pix : ℤ × ℤ) : Bool :=
  pix.1 < 0 || pix.1 > cfg.sizeX || pix.2 < 0 || pix.2 > cfg.sizeY

/-- The shift pixel consulted for shift index i: the base pixel plus
GRADIENT_ORDER[i]. -/
def shiftPixel (ix iy : ℕ) (i : ℕ) : ℤ × ℤ :=
  match GRADIENT_ORDER.get? i with
  | some off => ((ix : ℤ) + off.1, (iy : ℤ) + off.2)
  | none => (0, 0)

/-- IntegratorGradientPathTracing::compute_pixel with the path generation
and evaluation abstracted: rootValue is the evaluation of the base path,
offsetValue i the evaluation of the path retraced from shift pixel i over
the rewound tape, and u the unregistered draw of the survival filter.
When the survival weight is nonzero, main is root times 4 times 0.5 times
the weight; each in-frame shift contributes its offset value times 0.5
times the weight as radiance and the offset minus root difference
likewise as gradient, while out-of-bounds shifts keep the zero values the
record was built with.  A zero survival weight yields the default (all
zero) record. -/
def computePixel (cfg : GPTConfig) (ix iy : ℕ) (rootValue : Color)
    (offsetValue : ℕ → Color) (u : ℚ) : ColorGradient :=
  let weightSurvival := survivalWeight cfg.minSurvival rootValue.luminance u
  if weightSurvival ≠ 0 then
    let radianceAt := fun i =>
      if shiftOutside cfg (shiftPixel ix iy i) then Color.zero
      else ((offsetValue i).mulQ (1 / 2)).mulQ weightSurvival
    let gradientAt := fun i =>
      if shiftOutside cfg (shiftPixel ix iy i) then Color.zero
      else (((offsetValue i).sub rootValue).mulQ (1 / 2)).mulQ weightSurvival
    { veryDirect := Color.zero
      main := ((rootValue.mulQ 4).mulQ (1 / 2)).mulQ weightSurvival
      radiances := [radianceAt 0, radianceAt 1, radianceAt 2, radianceAt 3]
      gradients := [gradientAt 0, gradientAt 1, gradientAt 2, gradientAt 3] }
  else
    { veryDirect := Color.zero
      main := Color.zero
      radiances := [Color.zero, Color.zero, Color.zero, Color.zero]
      gradients := [Color.zero, Color.zero, Color.zero, Color.zero] }

/-- The buffer families targeted by compute_gradients. -/
inductive BufKind where
  | primal
  | veryDirect
  | gradientX
  | gradientY
deriving DecidableEq, Repr

/-- One accumulation performed by compute_gradients into a tile buffer:
safe marks the accumulate variant that drops out-of-bounds positions,
pos is the target pixel, and off the multi-buffer offset added to the
base buffer index. -/
structure AccEvent where
  safe : Bool
  pos : ℤ × ℤ
  value : Color
  buf : BufKind
  off : ℕ
deriving DecidableEq, Repr

/-- The per-sample accumulation sequence of
IntegratorGradientPathTracing::compute_gradients for the ColorGradient c
produced at base pixel (ix, iy) with multi-buffer offset offBuf: main
into primal and very_direct into its own buffer, both at the base pixel;
then for each shift index the radiance at the shifted pixel into primal
(safe), and the gradient into the axis buffer of GRADIENT_DIRECTION[i],
at the base pixel for a +1 direction and negated at the shifted pixel
(safe) for a -1 direction. -/
def splatEvents (ix iy : ℕ) (offBuf : ℕ) (c : ColorGradient) : List AccEvent :=
  let pos : ℤ × ℤ := ((ix : ℤ), (iy : ℤ))
  ⟨false, pos, c.main, .primal, offBuf⟩ ::
  ⟨false, pos, c.veryDirect, .veryDirect, 0⟩ ::
  (List.range 4).bind fun i =>
    let posOff := shiftPixel ix iy i
    let rad := (c.radiances.get? i).getD Color.zero
    let grad := (c.gradients.get? i).getD Color.zero
    ⟨true, posOff, rad, .primal, offBuf⟩ ::
    (match GRADIENT_DIRECTION.get? i with
     | some (.x v) =>
       if v = 1 then [⟨false, pos, grad, .gradientX, offBuf⟩]
       else if v = -1 then [⟨true, posOff, grad.mulQ (-1), .gradientX, offBuf⟩]
       else []
     | some (.y v) =>
       if v = 1 then [⟨false, pos, grad, .gradientY, offBuf⟩]
       else if v = -1 then [⟨true, posOff, grad.mulQ (-1), .gradientY, offBuf⟩]
       else []
     | none => [])

/-- A 3-vector over ℚ. -/
structure V3 where
  x : ℚ
  y : ℚ
  z : ℚ
deriving DecidableEq, Repr

/-- Ray from structure.rs: origin and direction.  The tnear and tfar
margins it carries are constants never consulted by the embedded code
and are elided. -/
structure Ray where
  o : V3
  d : V3

/-- Ray::new. -/
def Ray.new (o d : V3) : Ray := ⟨o, d⟩

/-- SampledDirection returned by BSDF sampling: the sampled weight (value
over pdf) and the sampled direction in local coordinates. -/
structure SampledDirection where
  weight : Color
  d : V3

/-- Modelled from the spec: the shading frame of an intersection; only its
local-to-world transform is consulted by path.rs, so the frame is carried
as that function. -/
structure Frame where
  toWorldFn : V3 → V3

/-- Frame::to_world. -/
def Frame.toWorld (f : Frame) (v : V3) : V3 := f.toWorldFn v

/-- Modelled from the spec: the BSDF collaborator of a mesh; path.rs
consults only its sample operation, taking the local incoming direction
and a 2d point, and possibly failing. -/
structure Bsdf where
  sample : V3 → ℚ × ℚ → Option SampledDirection

/-- Modelled from the spec: the mesh back-reference held by an
intersection; only its BSDF is consulted by path.rs. -/
structure Mesh where
  bsdf : Bsdf

/-- Intersection from structure.rs, restricted to the fields path.rs
consults: distance, point, mesh, shading frame and local incoming
direction. -/
structure Intersection where
  dist : ℚ
  p : V3
  mesh : Mesh
  frame : Frame
  wi : V3

/-- The Scene collaborator as consulted by path.rs: the camera position,
camera ray generation and the trace query. -/
structure Scene where
  cameraPos : V3
  cameraGenerate : ℚ × ℚ → Ray
  trace : Ray → Option Intersection

/-- Edge from path.rs: optional distance and world direction. -/
structure PEdge where
  dist : Option ℚ
  d : V3

/-- Vertex from path.rs: a sensor vertex (image uv, position, pdf) or a
surface vertex (intersection, throughput, the bsdf sample that produced
the outgoing direction if any, and the Russian roulette weight recorded
on arrival). -/
inductive PVertex where
  | sensor (uv : ℚ × ℚ) (pos : V3) (pdf : ℚ)
  | surface (its : Intersection) (throughput : Color)
      (sampledBsdf : Option SampledDirection) (rrWeight : ℚ)

/-- Vertex::new_sensor_vertex from path.rs: pdf set to 1. -/
def PVertex.newSensorVertex (uv : ℚ × ℚ) (pos : V3) : PVertex :=
  .sensor uv pos 1

/-- The Russian roulette weight stored on a vertex, when it is a surface
vertex. -/
def PVertex.rrw : PVertex → Option ℚ
  | .surface _ _ _ rw => some rw
  | _ => none

/-- The throughput stored on a vertex, when it is a surface vertex. -/
def PVertex.thr : PVertex → Option Color
  | .surface _ t _ _ => some t
  | _ => none

/-- Whether a vertex is a sensor vertex. -/
def PVertex.isSensor : PVertex → Bool
  | .sensor _ _ _ => true
  | _ => false

/-- Vertex::generate_next from path.rs, returning the possibly updated
vertex itself (the code mutates the surface vertex's stored bsdf sample),
the optional edge, the optional next vertex, and the advanced sampler.
Sensor case: generate the camera ray and trace; on a miss return an edge
with no distance and no next vertex; on a hit return the edge and a fresh
surface vertex with unit throughput and rr weight 1.  Surface case:
sample the BSDF (fail: no edge, no vertex); multiply the throughput by
the sampled weight (zero: no edge, no vertex); transform the sampled
direction to world, trace (miss: edge without distance, no vertex);
compute the roulette weight channel_max(new_throughput).min(0.95); if it
is below the next draw, return the edge with no next vertex; otherwise
divide the throughput by the roulette weight and return the edge and the
new surface vertex carrying that roulette weight. -/
def generateNext (scene : Scene) (v : PVertex) (s : StreamSampler) :
    PVertex × Option PEdge × Option PVertex × StreamSampler :=
  match v with
  | .sensor uv pos pdf =>
    let ray := scene.cameraGenerate uv
    match scene.trace ray with
    | none => (.sensor uv pos pdf, some ⟨none, ray.d⟩, none, s)
    | some its =>
      (.sensor uv pos pdf, some ⟨some its.dist, ray.d⟩,
       some (.surface its Color.one none 1), s)
  | .surface its thr oldSb rrw =>
    let (u2, s1) := s.next2d
    match its.mesh.bsdf.sample its.wi u2 with
    | none => (.surface its thr oldSb rrw, none, none, s1)
    | some sb =>
      let newThroughput := thr * sb.weight
      if newThroughput.isZero then
        (.surface its thr (some sb) rrw, none, none, s1)
      else
        let dOutGlobal := its.frame.toWorld sb.d
        let ray := Ray.new its.p dOutGlobal
        match scene.trace ray with
        | none => (.surface its thr (some sb) rrw, some ⟨none, dOutGlobal⟩, none, s1)
        | some its2 =>
          let rrWeight := min newThroughput.channelMax (95 / 100)
          let (u, s2) := s1.next
          if rrWeight < u then
            (.surface its thr (some sb) rrw, some ⟨some its2.dist, dOutGlobal⟩, none, s2)
          else
            (.surface its thr (some sb) rrw, some ⟨some its2.dist, dOutGlobal⟩,
             some (.surface its2 (newThroughput.divQ rrWeight) none rrWeight), s2)

/-- Path from path.rs: the vertex and edge vectors. -/
structure PathS where
  vertices : List PVertex
  edges : List PEdge

/-- The loop condition of Path::from_sensor:
max_depth.map_or(true, depth < max). -/
def loopCond (maxDepth : Option ℕ) (depth : ℕ) : Bool :=
  match maxDepth with
  | none => true
  | some m => depth < m

/-- The while loop of Path::from_sensor.  The vertex vector is carried as
the list of all but the last vertex together with the last vertex, so
that last_mut is the explicit last component.  fuel bounds the number of
iterations of the Rust loop; exhausting it while the loop condition still
holds, which cannot happen for a bounded depth and enough fuel, yields
none. -/
def pathLoop (scene : Scene) (maxDepth : Option ℕ) :
    ℕ → List PVertex → PVertex → List PEdge → ℕ → StreamSampler →
    Option (PathS × StreamSampler)
  | fuel, initV, lastV, es, depth, s =>
    if loopCond maxDepth depth then
      match fuel with
      | 0 => none
      | fuel + 1 =>
        let r := generateNext scene lastV s
        match r.2.1, r.2.2.1 with
        | some e, some nv =>
          pathLoop scene maxDepth fuel (initV ++ [r.1]) nv (es ++ [e]) (depth + 1) r.2.2.2
        | some e, none => some (⟨initV ++ [r.1], es ++ [e]⟩, r.2.2.2)
        | none, _ => some (⟨initV ++ [r.1], es⟩, r.2.2.2)
    else
      some (⟨initV ++ [lastV], es⟩, s)

/-- Path::from_sensor from path.rs: jitter the pixel with two draws, start
from a sensor vertex at the camera position, and run the expansion loop
from depth 1. -/
def fromSensor (scene : Scene) (ix iy : ℕ) (s : StreamSampler)
    (maxDepth : Option ℕ) (fuel : ℕ) : Option (PathS × StreamSampler) :=
  let (u1, s1) := s.next
  let (u2, s2) := s1.next
  let pix := ((ix : ℚ) + u1, (iy : ℚ) + u2)
  pathLoop scene maxDepth fuel [] (PVertex.newSensorVertex pix scene.cameraPos) [] 1 s2

/-- A concrete ReplaySampler used by the C1 witness: a tape of two values,
cursor 0, inner stream of successive naturals. -/
def replayWitnessState : ReplaySampler :=
  { sampler := ⟨fun n => (n : ℚ), 0⟩, random := [3 / 10, 7 / 10], indice := 0 }

/-- A concrete BSDF sample used by concrete path runs: weight one half in
every channel, direction along the local z axis. -/
def cexSb : SampledDirection := ⟨⟨1 / 2, 1 / 2, 1 / 2⟩, ⟨0, 0, 1⟩⟩

/-- A concrete intersection whose mesh BSDF always returns cexSb and whose
frame is the identity. -/
def cexIts : Intersection :=
  ⟨1, ⟨0, 0, 0⟩, ⟨⟨fun _ _ => some cexSb⟩⟩, ⟨fun v => v⟩, ⟨0, 0, 1⟩⟩

/-- A concrete scene: every trace hits cexIts. -/
def cexScene : Scene :=
  ⟨⟨0, 0, 0⟩, fun _ => ⟨⟨0, 0, 0⟩, ⟨0, 0, 1⟩⟩, fun _ => some cexIts⟩

/-- A sampler whose every draw is one half. -/
def halfSampler : StreamSampler := ⟨fun _ => 1 / 2, 0⟩

/-- A concrete surface vertex with unit throughput over cexIts. -/
def cexStart : PVertex := .surface cexIts Color.one none 1

/-- A concrete scene where every trace misses. -/
def missScene : Scene :=
  ⟨⟨0, 0, 0⟩, fun _ => ⟨⟨0, 0, 0⟩, ⟨0, 0, 1⟩⟩, fun _ => none⟩

/-- Modelled from the spec: an edge of the arena path framework as
consumed by convert_vpl: the multiplicative transport weight, the
Russian roulette weight, and the optional next vertex id. -/
structure VEdge where
  weight : Color
  rrWeight : ℚ
  toVertex : Option ℕ
deriving DecidableEq, Repr

/-- Modelled from the spec: a vertex of the arena path framework as
consumed by convert_vpl: surface and volume vertices carry their
outgoing edge ids, a light vertex its optional outgoing edge id; the
geometric payloads copied opaquely into the VPLs are elided. -/
inductive AVertex where
  | surface (edgeOut : List ℕ)
  | volume (edgeOut : List ℕ)
  | light (edgeOut : Option ℕ)
  | sensor
deriving DecidableEq, Repr

/-- Modelled from the spec: the arena path, dense vertex and edge vectors
addressed by integer ids. -/
structure APath where
  vertices : List AVertex
  edges : List VEdge
deriving DecidableEq, Repr

/-- The kind of a produced VPL. -/
inductive VPLKind where
  | surface
  | volume
  | emitter
deriving DecidableEq, Repr

/-- One VPL produced by convert_vpl, reduced to its kind and the radiance
it carries. -/
structure VPLEntry where
  kind : VPLKind
  radiance : Color
deriving DecidableEq, Repr

/-- TechniqueVPL::convert_vpl from vpl.rs, in depth-first emission order:
techFlux is the flux captured by TechniqueVPL::init (self.flux, always
present when conversion runs) and fuel bounds the recursion over the
arena graph.  A surface or volume vertex pushes a VPL carrying the
accumulated flux and recurses along every edge that has a next vertex
with flux times edge.weight times edge.rr_weight; a light vertex pushes
an emitter VPL carrying the captured flux, ignoring the accumulated
argument, and recurses along its outgoing edge with edge.weight times
captured flux times edge.rr_weight; a sensor vertex produces nothing.
Ids out of range and exhausted fuel produce nothing. -/
def convertVPL (path : APath) (techFlux : Color) :
    ℕ → ℕ → Color → List VPLEntry
  | 0, _, _ => []
  | fuel + 1, vid, flux =>
    match path.vertices.get? vid with
    | some (.surface edgeOut) =>
      ⟨.surface, flux⟩ ::
      edgeOut.bind (fun eid =>
        match path.edges.get? eid with
        | some e =>
          match e.toVertex with
          | some nid =>
            convertVPL path techFlux fuel nid ((flux * e.weight).mulQ e.rrWeight)
          | none => []
        | none => [])
    | some (.volume edgeOut) =>
      ⟨.volume, flux⟩ ::
      edgeOut.bind (fun eid =>
        match path.edges.get? eid with
        | some e =>
          match e.toVertex with
          | some nid =>
            convertVPL path techFlux fuel nid ((flux * e.weight).mulQ e.rrWeight)
          | none => []
        | none => [])
    | some (.light edgeOut) =>
      ⟨.emitter, techFlux⟩ ::
      (match edgeOut with
       | some eid =>
         match path.edges.get? eid with
         | some e =>
           match e.toVertex with
           | some nid =>
             convertVPL path techFlux fuel nid ((e.weight * techFlux).mulQ e.rrWeight)
           | none => []
         | none => []
       | none => [])
    | some .sensor => []
    | none => []

/-- The radiance bookkeeping the spec describes for convert_vpl: walk the
same graph carrying the running product of edge.weight times
edge.rr_weight from the root; surface and volume VPLs carry the captured
flux times that product, and the light VPL carries the captured flux
itself. -/
def vplRadianceWalk (path : APath) (techFlux : Color) :
    ℕ → ℕ → Color → List VPLEntry
  | 0, _, _ => []
  | fuel + 1, vid, prodC =>
    match path.vertices.get? vid with
    | some (.surface edgeOut) =>
      ⟨.surface, techFlux * prodC⟩ ::
      edgeOut.bind (fun eid =>
        match path.edges.get? eid with
        | some e =>
          match e.toVertex with
          | some nid =>
            vplRadianceWalk path techFlux fuel nid (prodC * (e.weight.mulQ e.rrWeight))
          | none => []
        | none => [])
    | some (.volume edgeOut) =>
      ⟨.volume, techFlux * prodC⟩ ::
      edgeOut.bind (fun eid =>
        match path.edges.get? eid with
        | some e =>
          match e.toVertex with
          | some nid =>
            vplRadianceWalk path techFlux fuel nid (prodC * (e.weight.mulQ e.rrWeight))
          | none => []
        | none => [])
    | some (.light edgeOut) =>
      ⟨.emitter, techFlux⟩ ::
      (match edgeOut with
       | some eid =>
         match path.edges.get? eid with
         | some e =>
           match e.toVertex with
           | some nid =>
             vplRadianceWalk path techFlux fuel nid (e.weight.mulQ e.rrWeight)
           | none => []
         | none => []
       | none => [])
    | some .sensor => []
    | none => []

/-- The EmitterSampler collaborator as consumed by TechniqueVPL::init:
random_sample_emitter_position takes two 1d draws and a 2d draw and
returns the emitter id, its sampled position and normal, and the scaled
flux. -/
structure EmitterSampler where
  randomSampleEmitterPosition : ℚ → ℚ → ℚ × ℚ → ℕ × V3 × V3 × Color

/-- TechniqueVPL::init from vpl.rs: draw next, next and next2d, sample the
emitter position once, capture the scaled flux in the technique, and
return the root with initial throughput Color::one.  The result is the
pair (captured flux, root initial throughput) with the advanced
sampler. -/
def techniqueVPLInit (em : EmitterSampler) (s : StreamSampler) :
    (Color × Color) × StreamSampler :=
  let (u1, s1) := s.next
  let (u2, s2) := s1.next
  let (uv, s3) := s2.next2d
  let r := em.randomSampleEmitterPosition u1 u2 uv
  ((r.2.2.2, Color.one), s3)

/-- A concrete light path for the C4 witness: a light root with one edge
to a surface vertex, which has one edge to a final surface vertex. -/
def vplWitnessPath : APath :=
  ⟨[.light (some 0), .surface [1], .surface []],
   [⟨⟨1 / 2, 1 / 4, 1⟩, 1 / 2, some 1⟩, ⟨⟨1, 1 / 3, 1 / 5⟩, 1 / 3, some 2⟩]⟩

/-- The pdf total in the MIS weight of
TechniqueGradientPathTracing::evaluate: each strategy contributes the pdf
it assigns to the edge, or 0 when it returns None. -/
def optPdfSum (pdfs : List (Option ℚ)) : ℚ :=
  (pdfs.map (fun o => o.getD 0)).sum

/-- The balance-heuristic weight evaluate applies to an edge sampled with
solid-angle pdf v: v divided by the total over all strategies. -/
def misWeight (v : ℚ) (pdfs : List (Option ℚ)) : ℚ :=
  v / optPdfSum pdfs

/-- PDF from structure.rs: a tagged pdf value. -/
inductive PDFm where
  | solidAngle (v : ℚ)
  | area (v : ℚ)
  | discrete (v : ℚ)
deriving DecidableEq, Repr

/-- The weight factor evaluate applies to an edge's contribution: for a
solid-angle pdf v it is the balance-heuristic weight over the
strategies' pdfs of this edge, and 1 for any other measure. -/
def evalEdgeWeight (pdfs : List (Option ℚ)) : PDFm → ℚ
  | .solidAngle v => misWeight v pdfs
  | _ => 1

/-- Modelled from the spec: an edge of the arena path framework as
consumed by evaluate: its contribution, sampling pdf, transport weight,
roulette weight and optional next vertex. -/
structure GEdge where
  contribution : Color
  pdfDirection : PDFm
  weight : Color
  rrWeight : ℚ
  toVertex : Option ℕ

/-- Modelled from the spec: a vertex of the arena path framework as
consumed by evaluate: a surface vertex with its outgoing edge ids, a
sensor vertex with its single outgoing edge (whose unwrap is assumed to
succeed; a missing edge yields zero here), or any other kind, which
evaluates to zero. -/
inductive GVertex where
  | surface (edgeOut : List ℕ)
  | sensor (edgeOut : Option ℕ)
  | other

/-- Modelled from the spec: the arena path consumed by evaluate. -/
structure GPath where
  vertices : List GVertex
  edges : List GEdge

/-- TechniqueGradientPathTracing::evaluate from
integrators/gradient/explicit.rs over the arena, with the strategies
abstracted as the pdf each assigns to an edge id: at a surface vertex,
sum over outgoing edges the nonzero contribution weighted by
evalEdgeWeight plus edge.weight times edge.rr_weight times the recursive
value at the next vertex; at the sensor vertex, add the single edge's
nonzero contribution plus edge.weight times the recursive value; other
vertex kinds yield zero. -/
def evaluateG (strategies : List (ℕ → Option ℚ)) (path : GPath) :
    ℕ → ℕ → Color
  | 0, _ => Color.zero
  | fuel + 1, vid =>
    match path.vertices.get? vid with
    | some (.surface edgeOut) =>
      edgeOut.foldl (fun acc eid =>
        match path.edges.get? eid with
        | some e =>
          let acc2 :=
            if e.contribution.isZero then acc
            else acc + e.contribution.mulQ
              (evalEdgeWeight (strategies.map fun st => st eid) e.pdfDirection)
          match e.toVertex with
          | some nid =>
            acc2 + (e.weight.mulQ e.rrWeight) * evaluateG strategies path fuel nid
          | none => acc2
        | none => acc) Color.zero
    | some (.sensor edgeOut) =>
      match edgeOut with
      | some eid =>
        match path.edges.get? eid with
        | some e =>
          let acc := if e.contribution.isZero then Color.zero else e.contribution
          match e.toVertex with
          | some nid => acc + e.weight * evaluateG strategies path fuel nid
          | none => acc
        | none => Color.zero
      | none => Color.zero
    | some .other => Color.zero
    | none => Color.zero

end Rustlight

namespace Rustlight

/-- Helper: componentwise description of the Color product. -/
theorem color_mul_def (a c : Color) :
    a * c = ⟨a.r * c.r, a.g * c.g, a.b * c.b⟩ := rfl

/-- Helper for the replay proof: drawing n values starting at cursor i
inside the tape returns the tape values at positions i, i+1, ... and moves
the cursor to i + n, leaving the tape and the inner sampler untouched. -/
theorem drawN_inside_tape (n : ℕ) :
    ∀ s : ReplaySampler, s.indice + n ≤ s.random.length →
      ReplaySampler.drawN n s =
        some ((s.random.drop s.indice).take n, { s with indice := s.indice + n }) := by
  induction n with
  | zero =>
      intro s _
      simp [ReplaySampler.drawN]
  | succ n ih =>
      intro s hs
      have hlt : s.indice < s.random.length := by omega
      have hgen : s.generate =
          some (s.random.get ⟨s.indice, hlt⟩, { s with indice := s.indice + 1 }) := by
        rw [ReplaySampler.generate]
        rw [if_pos (Nat.le_of_lt hlt), dif_pos hlt]
      have ih2 := ih { s with indice := s.indice + 1 }
        (show s.indice + 1 + n ≤ s.random.length by omega)
      have hdrop : s.random.drop s.indice =
          s.random.get ⟨s.indice, hlt⟩ :: s.random.drop (s.indice + 1) :=
        List.drop_eq_get_cons hlt
      rw [ReplaySampler.drawN, hgen]
      dsimp only
      rw [ih2]
      dsimp only
      rw [hdrop, List.take_succ_cons]
      have harith : s.indice + 1 + n = s.indice + (n + 1) := by omega
      rw [harith]

/-- C9 counterexample: on the Color (1,0,0), the luminance computed by the
code is 0.212671, which differs from the value 0.2127 predicted by the
claimed coefficient formula 0.2127 r + 0.7152 g + 0.0722 b. -/
theorem luminance_coefficient_counterexample :
    Color.luminance ⟨1, 0, 0⟩ ≠
      (2127 / 10000) * 1 + (7152 / 10000) * 0 + (722 / 10000) * 0 := by
  norm_num [Color.luminance]

/-- C9 amended: for every Color c, Color::luminance(c) equals
0.212671 * r + 0.715160 * g + 0.072169 * b where r, g, b are the
components of c. -/
theorem luminance_formula (c : Color) :
    Color.luminance c =
      c.r * (212671 / 1000000) + c.g * (715160 / 1000000) + c.b * (72169 / 1000000) :=
  rfl

/-- C8 counterexample: dividing the unit Color by the finite scalar 0 hits
the assertion in impl Div of f32 for Color and aborts (modelled as none),
refuting the claim that dividing a Color by a zero scalar does not abort. -/
theorem div_by_zero_aborts_counterexample :
    Color.divScalar Color.one (.fin 0) = none := by
  decide

/-- C8 amended: multiplying any Color by a non-finite scalar yields the zero
Color; dividing any Color by a zero or non-finite scalar fails the
assertions of the Div implementation (the call aborts) instead of
returning a value. -/
theorem color_scalar_edge_cases :
    (∀ (c : Color) (s : FScalar), s.isFinite = false → Color.mulScalar c s = Color.zero) ∧
    (∀ (c : Color) (s : FScalar), s.isFinite = false ∨ s = .fin 0 →
      Color.divScalar c s = none) := by
  constructor
  · intro c s hs
    cases s with
    | fin q => simp [FScalar.isFinite] at hs
    | nan => rfl
    | posInf => rfl
    | negInf => rfl
  · intro c s hs
    cases s with
    | fin q =>
        rcases hs with hs | hs
        · simp [FScalar.isFinite] at hs
        · cases hs
          simp [Color.divScalar]
    | nan => rfl
    | posInf => rfl
    | negInf => rfl

/-- C8 witness: the amended theorem applied at the concrete inputs
Color.one with the scalar nan, and Color.one with the finite scalar 0. -/
theorem color_scalar_edge_cases_witness :
    Color.mulScalar Color.one .nan = Color.zero ∧
    Color.divScalar Color.one (.fin 0) = none :=
  ⟨color_scalar_edge_cases.1 Color.one .nan (by decide),
   color_scalar_edge_cases.2 Color.one (.fin 0) (Or.inr rfl)⟩

/-- C1: ReplaySampler::generate returns tape at cursor and advances when the
cursor is inside the tape; otherwise it draws a fresh value from the inner
sampler, appends it to the tape, advances, and returns it.  After the
cursor is reset to 0 with the tape kept, a run of n draws with n at most
the tape length receives exactly the first n original tape values, in
order. -/
theorem replay_sampler_generate_and_replay :
    (∀ (s : ReplaySampler) (h : s.indice < s.random.length),
      s.generate = some (s.random.get ⟨s.indice, h⟩, { s with indice := s.indice + 1 })) ∧
    (∀ s : ReplaySampler, s.indice = s.random.length →
      s.generate = some (s.sampler.stream s.sampler.pos,
        { sampler := ⟨s.sampler.stream, s.sampler.pos + 1⟩,
          random := s.random ++ [s.sampler.stream s.sampler.pos],
          indice := s.indice + 1 })) ∧
    (∀ (s : ReplaySampler) (n : ℕ), n ≤ s.random.length →
      ReplaySampler.drawN n s.rewind =
        some (s.random.take n, { s.rewind with indice := n })) := by
  refine ⟨?_, ?_, ?_⟩
  · intro s h
    rw [ReplaySampler.generate, if_pos (Nat.le_of_lt h), dif_pos h]
  · intro s h
    rw [ReplaySampler.generate, if_pos (Nat.le_of_eq h), dif_neg (by omega)]
    rfl
  · intro s n hn
    have := drawN_inside_tape n s.rewind (by simpa [ReplaySampler.rewind] using hn)
    simpa [ReplaySampler.rewind] using this

/-- C1 witness: the theorem applied at a concrete sampler state, giving the
taped value at cursor 0 and the full two-value replay after a rewind. -/
theorem replay_sampler_generate_and_replay_witness :
    replayWitnessState.generate =
      some (replayWitnessState.random.get ⟨0, by decide⟩,
        { replayWitnessState with indice := 1 }) ∧
    ReplaySampler.drawN 2 replayWitnessState.rewind =
      some (replayWitnessState.random.take 2, { replayWitnessState.rewind with indice := 2 }) :=
  ⟨replay_sampler_generate_and_replay.1 replayWitnessState (by decide),
   replay_sampler_generate_and_replay.2.2 replayWitnessState 2 (by decide)⟩

/-- C3 counterexample: with min_survival = 1/2 and a black root value the
survival probability is 1/2 < 1, and at the boundary draw u = 1/2 the
claimed rule (weight 0 whenever u is at least the probability) predicts a
killed sample, but the code keeps it with weight 2. -/
theorem survival_boundary_counterexample :
    survivalWeight (some (1 / 2)) (Color.luminance Color.zero) (1 / 2) = 2 ∧
    max (min (Color.luminance Color.zero / (1 / 10)) 1) (1 / 2) < 1 ∧
    (1 / 2 : ℚ) ≥ max (min (Color.luminance Color.zero / (1 / 10)) 1) (1 / 2) := by
  refine ⟨?_, ?_, ?_⟩ <;>
    norm_num [survivalWeight, Color.luminance, Color.zero]

/-- C3 amended: the survival probability is
p = (luminance(root)/0.1).min(1).max(min_survival); the draw u comes from
the unregistered path, which advances only the inner sampler and leaves
the tape and cursor untouched; the sample is killed (weight 0) exactly
when p < 1 and u is strictly greater than p, in which case compute_pixel
returns the all-zero ColorGradient, and otherwise the weight is 1/p. -/
theorem survival_filter_amended :
    (∀ s : ReplaySampler,
      s.unregistered.2.random = s.random ∧
      s.unregistered.2.indice = s.indice ∧
      s.unregistered.1 = s.sampler.stream s.sampler.pos) ∧
    (∀ ms rootLum u : ℚ, 0 < ms → ms ≤ 1 →
      (max (min (rootLum / (1 / 10)) 1) ms < 1 →
        max (min (rootLum / (1 / 10)) 1) ms < u →
        survivalWeight (some ms) rootLum u = 0) ∧
      (¬ (max (min (rootLum / (1 / 10)) 1) ms < 1 ∧
          max (min (rootLum / (1 / 10)) 1) ms < u) →
        survivalWeight (some ms) rootLum u =
          1 / max (min (rootLum / (1 / 10)) 1) ms)) ∧
    (∀ (cfg : GPTConfig) (ix iy : ℕ) (root : Color) (off : ℕ → Color) (u : ℚ),
      survivalWeight cfg.minSurvival root.luminance u = 0 →
      computePixel cfg ix iy root off u =
        ⟨Color.zero, Color.zero,
         [Color.zero, Color.zero, Color.zero, Color.zero],
         [Color.zero, Color.zero, Color.zero, Color.zero]⟩) := by
  refine ⟨?_, ?_, ?_⟩
  · intro s
    exact ⟨rfl, rfl, rfl⟩
  · intro ms rootLum u hms0 hms1
    set p := max (min (rootLum / (1 / 10)) 1) ms with hp
    have hple : p ≤ 1 := by
      rw [hp]
      exact max_le (min_le_right _ _) hms1
    constructor
    · intro hlt hu
      rw [survivalWeight, ← hp]
      rw [if_neg]
      push_neg
      exact ⟨ne_of_lt hlt, lt_of_not_ge fun hge => absurd hu (not_lt.mpr hge)⟩
    · intro hnot
      rw [survivalWeight, ← hp, if_pos]
      rcases not_and_or.mp hnot with h1 | h2
      · exact Or.inl (le_antisymm hple (not_lt.mp h1))
      · exact Or.inr (not_lt.mp h2)
  · intro cfg ix iy root off u hzero
    rw [computePixel, if_neg]
    simp [hzero]

/-- C3 witness: the amended theorem applied at a concrete sampler state and
at min_survival = 1/2 with a black root and draw 3/4 (killed sample). -/
theorem survival_filter_amended_witness :
    replayWitnessState.unregistered.2.random = replayWitnessState.random ∧
    survivalWeight (some (1 / 2)) 0 (3 / 4) = 0 ∧
    computePixel ⟨4, 4, some (1 / 2)⟩ 0 0 Color.zero (fun _ => Color.one) (3 / 4) =
      ⟨Color.zero, Color.zero,
       [Color.zero, Color.zero, Color.zero, Color.zero],
       [Color.zero, Color.zero, Color.zero, Color.zero]⟩ :=
  ⟨(survival_filter_amended.1 replayWitnessState).1,
   (survival_filter_amended.2.1 (1 / 2) 0 (3 / 4) (by norm_num) (by norm_num)).1
     (by norm_num) (by norm_num),
   survival_filter_amended.2.2 ⟨4, 4, some (1 / 2)⟩ 0 0 Color.zero (fun _ => Color.one)
     (3 / 4) (by norm_num [survivalWeight, Color.luminance, Color.zero])⟩

/-- C6 counterexample: in a 2 by 2 frame (valid pixel x coordinates 0 and
1), the shift pixel of base pixel (1,0) for shift index 0 is (2,0), which
lies outside the frame; yet compute_pixel returns a nonzero radiance for
that shift, because the code's bounds test only rejects x strictly
greater than the width. -/
theorem shift_outside_counterexample :
    (computePixel ⟨2, 2, none⟩ 1 0 Color.one (fun _ => Color.one) 0).radiances.get? 0 =
      some ⟨1 / 2, 1 / 2, 1 / 2⟩ ∧
    (shiftPixel 1 0 0).1 ≥ (2 : ℤ) ∧
    (⟨1 / 2, 1 / 2, 1 / 2⟩ : Color) ≠ Color.zero := by
  refine ⟨?_, ?_, ?_⟩
  · norm_num [computePixel, survivalWeight, shiftOutside, shiftPixel, GRADIENT_ORDER,
      Color.mulQ, Color.one]
  · norm_num [shiftPixel, GRADIENT_ORDER]
  · intro h
    have := congrArg Color.r h
    norm_num [Color.zero] at this

/-- C6 amended: whenever the code's bounds test rejects the shift pixel of
index i, that is when x < 0, y < 0, x strictly greater than the image
width, or y strictly greater than the image height, the ColorGradient
returned by compute_pixel has radiances[i] = 0 and gradients[i] = 0. -/
theorem shift_outside_zero_amended (cfg : GPTConfig) (ix iy : ℕ) (root : Color)
    (off : ℕ → Color) (u : ℚ) (i : ℕ) (hi : i < 4)
    (hout : shiftOutside cfg (shiftPixel ix iy i) = true) :
    (computePixel cfg ix iy root off u).radiances.get? i = some Color.zero ∧
    (computePixel cfg ix iy root off u).gradients.get? i = some Color.zero := by
  rw [computePixel]
  split
  · interval_cases i <;> simp [hout]
  · interval_cases i <;> simp

/-- C6 witness: the amended theorem applied at a 2 by 2 frame, base pixel
(0,0) and shift index 2, whose shift pixel (-1,0) is rejected by the
bounds test. -/
theorem shift_outside_zero_amended_witness :
    (computePixel ⟨2, 2, none⟩ 0 0 Color.one (fun _ => Color.one) 0).radiances.get? 2 =
      some Color.zero ∧
    (computePixel ⟨2, 2, none⟩ 0 0 Color.one (fun _ => Color.one) 0).gradients.get? 2 =
      some Color.zero :=
  shift_outside_zero_amended ⟨2, 2, none⟩ 0 0 Color.one (fun _ => Color.one) 0 2
    (by norm_num) (by decide)

/-- C7: the accumulation sequence of compute_gradients for one sample:
radiances go to the shifted pixels into primal with the safe
accumulation; the gradient of shift 0 (direction X(+1)) goes to the base
pixel into gradient_x; the gradient of shift 2 (direction X(-1)) goes
negated to the shifted pixel into gradient_x with the safe accumulation;
and symmetrically shifts 1 and 3 go into gradient_y. -/
theorem gradient_splatting_events (ix iy offBuf : ℕ)
    (vd mn r0 r1 r2 r3 g0 g1 g2 g3 : Color) :
    splatEvents ix iy offBuf ⟨vd, mn, [r0, r1, r2, r3], [g0, g1, g2, g3]⟩ =
      [⟨false, ((ix : ℤ), (iy : ℤ)), mn, .primal, offBuf⟩,
       ⟨false, ((ix : ℤ), (iy : ℤ)), vd, .veryDirect, 0⟩,
       ⟨true, ((ix : ℤ) + 1, (iy : ℤ)), r0, .primal, offBuf⟩,
       ⟨false, ((ix : ℤ), (iy : ℤ)), g0, .gradientX, offBuf⟩,
       ⟨true, ((ix : ℤ), (iy : ℤ) + 1), r1, .primal, offBuf⟩,
       ⟨false, ((ix : ℤ), (iy : ℤ)), g1, .gradientY, offBuf⟩,
       ⟨true, ((ix : ℤ) - 1, (iy : ℤ)), r2, .primal, offBuf⟩,
       ⟨true, ((ix : ℤ) - 1, (iy : ℤ)), g2.mulQ (-1), .gradientX, offBuf⟩,
       ⟨true, ((ix : ℤ), (iy : ℤ) - 1), r3, .primal, offBuf⟩,
       ⟨true, ((ix : ℤ), (iy : ℤ) - 1), g3.mulQ (-1), .gradientY, offBuf⟩] := by
  simp [splatEvents, shiftPixel, GRADIENT_ORDER, GRADIENT_DIRECTION, List.range_succ]
  norm_num [sub_eq_add_neg]

/-- Helper: one successful surface extension step of generate_next.  When
the BSDF sample succeeds, the new throughput is nonzero and the trace
hits, the result is determined by comparing the roulette weight
channel_max(new_throughput).min(0.95) with the next draw: strictly below
the draw kills the extension (edge without next vertex), otherwise the
new vertex carries the throughput divided by the roulette weight and the
roulette weight itself. -/
theorem generateNext_surface_run (scene : Scene) (its : Intersection) (thr : Color)
    (oldSb : Option SampledDirection) (rrw : ℚ) (s : StreamSampler)
    (sb : SampledDirection) (its2 : Intersection)
    (hsample : its.mesh.bsdf.sample its.wi (s.stream s.pos, s.stream (s.pos + 1)) = some sb)
    (hnz : (thr * sb.weight).isZero = false)
    (htrace : scene.trace (Ray.new its.p (its.frame.toWorld sb.d)) = some its2) :
    generateNext scene (.surface its thr oldSb rrw) s =
      if min (thr * sb.weight).channelMax (95 / 100) < s.stream (s.pos + 2) then
        (.surface its thr (some sb) rrw,
         some ⟨some its2.dist, its.frame.toWorld sb.d⟩, none, ⟨s.stream, s.pos + 3⟩)
      else
        (.surface its thr (some sb) rrw,
         some ⟨some its2.dist, its.frame.toWorld sb.d⟩,
         some (.surface its2
           ((thr * sb.weight).divQ (min (thr * sb.weight).channelMax (95 / 100)))
           none (min (thr * sb.weight).channelMax (95 / 100))),
         ⟨s.stream, s.pos + 3⟩) := by
  simp only [generateNext, StreamSampler.next2d, StreamSampler.next]
  rw [hsample]
  simp only [hnz, Bool.false_eq_true, if_false]
  rw [htrace]

/-- C2 counterexample: with unit incoming throughput, a BSDF weight of one
half per channel and every draw equal to one half, the roulette weight is
q = min(0.95, channel_max) = 1/2 and the draw is u = 1/2, so u ≥ q; the
claim predicts a terminated extension with rr weight 0, but the code
keeps the extension (a next vertex exists) and the stored rr weight is
q = 1/2, which moreover differs from the claimed stored value 1/q = 2. -/
theorem russian_roulette_boundary_counterexample :
    (generateNext cexScene cexStart halfSampler).2.2.1.isSome = true ∧
    ((generateNext cexScene cexStart halfSampler).2.2.1.bind PVertex.rrw) = some (1 / 2) ∧
    min (Color.one * cexSb.weight).channelMax (95 / 100) = 1 / 2 ∧
    halfSampler.stream (halfSampler.pos + 2) ≥
      min (Color.one * cexSb.weight).channelMax (95 / 100) ∧
    (1 / 2 : ℚ) ≠ 1 / (1 / 2 : ℚ) := by
  have hq : min (Color.one * cexSb.weight).channelMax (95 / 100) = (1 / 2 : ℚ) := by
    norm_num [Color.one, cexSb, color_mul_def, Color.channelMax]
  have hnz : (Color.one * cexSb.weight).isZero = false := by
    norm_num [Color.isZero, Color.one, cexSb, color_mul_def]
  have hrun := generateNext_surface_run cexScene cexIts Color.one none 1 halfSampler
    cexSb cexIts rfl hnz rfl
  have hcond : ¬ (min (Color.one * cexSb.weight).channelMax (95 / 100) <
      halfSampler.stream (halfSampler.pos + 2)) := by
    rw [hq]
    norm_num [halfSampler]
  rw [if_neg hcond] at hrun
  have hstart : cexStart = PVertex.surface cexIts Color.one none 1 := rfl
  refine ⟨?_, ?_, hq, by rw [hq]; norm_num [halfSampler], by norm_num⟩
  · rw [hstart, hrun]
    rfl
  · rw [hstart, hrun]
    simp [PVertex.rrw, hq]

/-- C2 amended: on a successful surface extension (BSDF sample succeeds,
new throughput nonzero, trace hits), with q = min(0.95,
channel_max(new_throughput)) and u the next draw: if u is strictly
greater than q the extension is terminated (the edge has no next vertex);
otherwise the new vertex stores rr weight q itself and its throughput is
the new throughput divided by q. -/
theorem russian_roulette_amended (scene : Scene) (its : Intersection) (thr : Color)
    (oldSb : Option SampledDirection) (rrw : ℚ) (s : StreamSampler)
    (sb : SampledDirection) (its2 : Intersection)
    (hsample : its.mesh.bsdf.sample its.wi (s.stream s.pos, s.stream (s.pos + 1)) = some sb)
    (hnz : (thr * sb.weight).isZero = false)
    (htrace : scene.trace (Ray.new its.p (its.frame.toWorld sb.d)) = some its2) :
    (min (thr * sb.weight).channelMax (95 / 100) < s.stream (s.pos + 2) →
      generateNext scene (.surface its thr oldSb rrw) s =
        (.surface its thr (some sb) rrw,
         some ⟨some its2.dist, its.frame.toWorld sb.d⟩, none, ⟨s.stream, s.pos + 3⟩)) ∧
    (¬ min (thr * sb.weight).channelMax (95 / 100) < s.stream (s.pos + 2) →
      generateNext scene (.surface its thr oldSb rrw) s =
        (.surface its thr (some sb) rrw,
         some ⟨some its2.dist, its.frame.toWorld sb.d⟩,
         some (.surface its2
           ((thr * sb.weight).divQ (min (thr * sb.weight).channelMax (95 / 100)))
           none (min (thr * sb.weight).channelMax (95 / 100))),
         ⟨s.stream, s.pos + 3⟩)) := by
  have hrun := generateNext_surface_run scene its thr oldSb rrw s sb its2 hsample hnz htrace
  constructor
  · intro h
    rw [hrun, if_pos h]
  · intro h
    rw [hrun, if_neg h]

/-- C2 witness: the amended theorem applied at the concrete run of the
counterexample, surviving branch. -/
theorem russian_roulette_amended_witness :
    generateNext cexScene (.surface cexIts Color.one none 1) halfSampler =
      (.surface cexIts Color.one (some cexSb) 1,
       some ⟨some cexIts.dist, cexIts.frame.toWorld cexSb.d⟩,
       some (.surface cexIts
         ((Color.one * cexSb.weight).divQ
           (min (Color.one * cexSb.weight).channelMax (95 / 100)))
         none (min (Color.one * cexSb.weight).channelMax (95 / 100))),
       ⟨halfSampler.stream, halfSampler.pos + 3⟩) :=
  (russian_roulette_amended cexScene cexIts Color.one none 1 halfSampler cexSb cexIts
    rfl
    (by norm_num [Color.isZero, Color.one, cexSb, color_mul_def])
    rfl).2
    (by norm_num [Color.one, cexSb, color_mul_def, Color.channelMax, halfSampler])

/-- Helper: generate_next does not modify a sensor vertex. -/
theorem generateNext_sensor_fst (scene : Scene) (uv : ℚ × ℚ) (pos : V3) (pdf : ℚ)
    (s : StreamSampler) :
    (generateNext scene (.sensor uv pos pdf) s).1 = .sensor uv pos pdf := by
  cases htr : scene.trace (scene.cameraGenerate uv) with
  | none => simp [generateNext, htr]
  | some its => simp [generateNext, htr]

/-- Helper: whenever the from_sensor loop returns a path, its first vertex
is still the sensor vertex it started from, and the number of vertices is
the number of edges or that number plus one. -/
theorem pathLoop_head_count (scene : Scene) (maxDepth : Option ℕ) (uv : ℚ × ℚ)
    (pos : V3) (pdf : ℚ) :
    ∀ (fuel : ℕ) (initV : List PVertex) (lastV : PVertex) (es : List PEdge)
      (depth : ℕ) (s : StreamSampler) (p : PathS) (s2 : StreamSampler),
      (initV ++ [lastV]).head? = some (.sensor uv pos pdf) →
      initV.length = es.length →
      pathLoop scene maxDepth fuel initV lastV es depth s = some (p, s2) →
      p.vertices.head? = some (.sensor uv pos pdf) ∧
      (p.vertices.length = p.edges.length + 1 ∨ p.vertices.length = p.edges.length) := by
  intro fuel
  induction fuel with
  | zero =>
      intro initV lastV es depth s p s2 hhead hlen hrun
      rw [pathLoop] at hrun
      by_cases hc : loopCond maxDepth depth = true
      · rw [if_pos hc] at hrun
        exact absurd hrun (by simp)
      · rw [if_neg hc] at hrun
        cases hrun
        refine ⟨hhead, Or.inl ?_⟩
        simp [hlen]
  | succ fuel ih =>
      intro initV lastV es depth s p s2 hhead hlen hrun
      rw [pathLoop] at hrun
      by_cases hc : loopCond maxDepth depth = true
      · rw [if_pos hc] at hrun
        rcases hgen : generateNext scene lastV s with ⟨v1, oe, ov, s3⟩
        rw [hgen] at hrun
        have hhead2 : (initV ++ [v1]).head? = some (PVertex.sensor uv pos pdf) := by
          cases initV with
          | nil =>
              simp only [List.nil_append, List.head?_cons] at hhead ⊢
              have hlast : lastV = PVertex.sensor uv pos pdf := by
                injection hhead
              have hv1 : v1 = (generateNext scene lastV s).1 := by rw [hgen]
              rw [hv1, hlast, generateNext_sensor_fst]
          | cons h t =>
              simpa using by simpa using hhead
        cases oe with
        | none =>
            cases hrun
            constructor
            · simpa using hhead2
            · left
              simp [hlen]
        | some e =>
            cases ov with
            | none =>
                cases hrun
                constructor
                · simpa using hhead2
                · right
                  simp [hlen]
            | some nv =>
                have hhead3 : ((initV ++ [v1]) ++ [nv]).head? =
                    some (PVertex.sensor uv pos pdf) := by
                  cases initV with
                  | nil => simpa using hhead2
                  | cons h t => simpa using by simpa using hhead2
                have hlen3 : (initV ++ [v1]).length = (es ++ [e]).length := by
                  simp [hlen]
                exact ih (initV ++ [v1]) nv (es ++ [e]) (depth + 1) s3 p s2 hhead3 hlen3 hrun
      · rw [if_neg hc] at hrun
        cases hrun
        refine ⟨hhead, Or.inl ?_⟩
        simp [hlen]

/-- Helper: with a bounded depth and enough fuel, the from_sensor loop
always returns a path. -/
theorem pathLoop_total (scene : Scene) (m : ℕ) :
    ∀ (fuel : ℕ) (initV : List PVertex) (lastV : PVertex) (es : List PEdge)
      (depth : ℕ) (s : StreamSampler), m ≤ depth + fuel →
      (pathLoop scene (some m) fuel initV lastV es depth s).isSome = true := by
  intro fuel
  induction fuel with
  | zero =>
      intro initV lastV es depth s hfuel
      rw [pathLoop]
      have hc : loopCond (some m) depth = false := by
        simp [loopCond]
        omega
      rw [hc]
      simp
  | succ fuel ih =>
      intro initV lastV es depth s hfuel
      rw [pathLoop]
      by_cases hc : loopCond (some m) depth = true
      · rw [if_pos hc]
        rcases hgen : generateNext scene lastV s with ⟨v1, oe, ov, s3⟩
        cases oe with
        | none => simp
        | some e =>
            cases ov with
            | none => simp
            | some nv =>
                simpa using ih (initV ++ [v1]) nv (es ++ [e]) (depth + 1) s3 (by omega)
      · rw [if_neg hc]
        simp

/-- Helper: with a bounded depth m, any path returned by the from_sensor
loop entered at a depth covering its vertex count and not above m has at
most m vertices. -/
theorem pathLoop_count_le (scene : Scene) (m : ℕ) :
    ∀ (fuel : ℕ) (initV : List PVertex) (lastV : PVertex) (es : List PEdge)
      (depth : ℕ) (s : StreamSampler) (p : PathS) (s2 : StreamSampler),
      initV.length + 1 ≤ depth → depth ≤ m →
      pathLoop scene (some m) fuel initV lastV es depth s = some (p, s2) →
      p.vertices.length ≤ m := by
  intro fuel
  induction fuel with
  | zero =>
      intro initV lastV es depth s p s2 hinit hdep hrun
      rw [pathLoop] at hrun
      by_cases hc : loopCond (some m) depth = true
      · rw [if_pos hc] at hrun
        exact absurd hrun (by simp)
      · rw [if_neg hc] at hrun
        cases hrun
        simp only [List.length_append, List.length_cons, List.length_nil]
        omega
  | succ fuel ih =>
      intro initV lastV es depth s p s2 hinit hdep hrun
      rw [pathLoop] at hrun
      by_cases hc : loopCond (some m) depth = true
      · have hlt : depth < m := by
          simpa [loopCond] using hc
        rw [if_pos hc] at hrun
        rcases hgen : generateNext scene lastV s with ⟨v1, oe, ov, s3⟩
        rw [hgen] at hrun
        cases oe with
        | none =>
            cases hrun
            simp only [List.length_append, List.length_cons, List.length_nil]
            omega
        | some e =>
            cases ov with
            | none =>
                cases hrun
                simp only [List.length_append, List.length_cons, List.length_nil]
                omega
            | some nv =>
                refine ih (initV ++ [v1]) nv (es ++ [e]) (depth + 1) s3 p s2 ?_ ?_ hrun
                · simp only [List.length_append, List.length_cons, List.length_nil]
                  omega
                · omega
      · rw [if_neg hc] at hrun
        cases hrun
        simp only [List.length_append, List.length_cons, List.length_nil]
        omega

/-- C10: Path::from_sensor never returns None: for a bounded depth m of at
least 1 and enough loop fuel, it returns a path whose first vertex is the
sensor vertex at the jittered pixel, whose edge count is the vertex count
or the vertex count minus one, and which has at most m vertices; and for
any depth argument, whenever the loop terminates the returned path has
the sensor head and the same vertex and edge count relation. -/
theorem from_sensor_invariants :
    (∀ (scene : Scene) (ix iy : ℕ) (s : StreamSampler) (m fuel : ℕ),
      1 ≤ m → m ≤ 1 + fuel →
      ∃ (p : PathS) (s2 : StreamSampler),
        fromSensor scene ix iy s (some m) fuel = some (p, s2) ∧
        p.vertices.head? = some (PVertex.newSensorVertex
          ((ix : ℚ) + s.stream s.pos, (iy : ℚ) + s.stream (s.pos + 1)) scene.cameraPos) ∧
        (p.vertices.length = p.edges.length + 1 ∨ p.vertices.length = p.edges.length) ∧
        p.vertices.length ≤ m) ∧
    (∀ (scene : Scene) (ix iy : ℕ) (s : StreamSampler) (maxDepth : Option ℕ)
       (fuel : ℕ) (p : PathS) (s2 : StreamSampler),
      fromSensor scene ix iy s maxDepth fuel = some (p, s2) →
      p.vertices.head? = some (PVertex.newSensorVertex
        ((ix : ℚ) + s.stream s.pos, (iy : ℚ) + s.stream (s.pos + 1)) scene.cameraPos) ∧
      (p.vertices.length = p.edges.length + 1 ∨ p.vertices.length = p.edges.length)) := by
  constructor
  · intro scene ix iy s m fuel hm hfuel
    have htot := pathLoop_total scene m fuel []
      (PVertex.newSensorVertex
        ((ix : ℚ) + s.stream s.pos, (iy : ℚ) + s.stream (s.pos + 1)) scene.cameraPos)
      [] 1 ⟨s.stream, s.pos + 2⟩ (by omega)
    rw [Option.isSome_iff_exists] at htot
    obtain ⟨⟨p, s2⟩, hrun⟩ := htot
    have hhc := pathLoop_head_count scene (some m)
      ((ix : ℚ) + s.stream s.pos, (iy : ℚ) + s.stream (s.pos + 1)) scene.cameraPos 1
      fuel [] _ [] 1 _ p s2 (by simp [PVertex.newSensorVertex]) rfl hrun
    refine ⟨p, s2, hrun, hhc.1, hhc.2, ?_⟩
    exact pathLoop_count_le scene m fuel [] _ [] 1 _ p s2 (by simp) hm hrun
  · intro scene ix iy s maxDepth fuel p s2 hrun
    exact pathLoop_head_count scene maxDepth
      ((ix : ℚ) + s.stream s.pos, (iy : ℚ) + s.stream (s.pos + 1)) scene.cameraPos 1
      fuel [] _ [] 1 _ p s2 (by simp [PVertex.newSensorVertex]) rfl hrun

/-- Helper: scaling a Color product by a scalar regroups as the first
factor times the scaled remainder. -/
theorem color_flux_assoc (f p w : Color) (q : ℚ) :
    ((f * p) * w).mulQ q = f * (p * (w.mulQ q)) := by
  cases f
  cases p
  cases w
  simp only [color_mul_def, Color.mulQ, Color.mk.injEq]
  refine ⟨by ring, by ring, by ring⟩

/-- Helper: scaling a commuted Color product by a scalar regroups as the
second factor times the scaled first. -/
theorem color_flux_light (f w : Color) (q : ℚ) :
    (w * f).mulQ q = f * (w.mulQ q) := by
  cases f
  cases w
  simp only [color_mul_def, Color.mulQ, Color.mk.injEq]
  refine ⟨by ring, by ring, by ring⟩

/-- Helper: Color.one is a right unit for the Color product. -/
theorem color_mul_one (f : Color) : f * Color.one = f := by
  cases f
  simp [color_mul_def, Color.one]

/-- Helper: convert_vpl invoked with accumulated flux equal to the
captured flux times a running product produces exactly the VPLs of the
radiance walk carrying that product. -/
theorem convertVPL_eq_walk (path : APath) (F : Color) :
    ∀ (fuel vid : ℕ) (prodC : Color),
      convertVPL path F fuel vid (F * prodC) = vplRadianceWalk path F fuel vid prodC := by
  intro fuel
  induction fuel with
  | zero =>
      intro vid prodC
      rfl
  | succ fuel ih =>
      intro vid prodC
      rw [convertVPL, vplRadianceWalk]
      cases hv : path.vertices.get? vid with
      | none => rfl
      | some v =>
          cases v with
          | surface edgeOut =>
              dsimp only
              congr 1
              apply congrArg
              funext eid
              cases he : path.edges.get? eid with
              | none => rfl
              | some e =>
                  dsimp only
                  cases hto : e.toVertex with
                  | none => rfl
                  | some nid =>
                      dsimp only
                      rw [color_flux_assoc]
                      exact ih nid (prodC * (e.weight.mulQ e.rrWeight))
          | volume edgeOut =>
              dsimp only
              congr 1
              apply congrArg
              funext eid
              cases he : path.edges.get? eid with
              | none => rfl
              | some e =>
                  dsimp only
                  cases hto : e.toVertex with
                  | none => rfl
                  | some nid =>
                      dsimp only
                      rw [color_flux_assoc]
                      exact ih nid (prodC * (e.weight.mulQ e.rrWeight))
          | light edgeOut =>
              dsimp only
              congr 1
              cases edgeOut with
              | none => rfl
              | some eid =>
                  dsimp only
                  cases he : path.edges.get? eid with
                  | none => rfl
                  | some e =>
                      dsimp only
                      cases hto : e.toVertex with
                      | none => rfl
                      | some nid =>
                          dsimp only
                          rw [color_flux_light]
                          exact ih nid (e.weight.mulQ e.rrWeight)
          | sensor => rfl

/-- Helper: at a light root the accumulated flux argument of convert_vpl
is ignored. -/
theorem convertVPL_light_flux (path : APath) (F : Color) (fuel root : ℕ)
    (eo : Option ℕ) (flux1 flux2 : Color)
    (hroot : path.vertices.get? root = some (.light eo)) :
    convertVPL path F (fuel + 1) root flux1 =
      convertVPL path F (fuel + 1) root flux2 := by
  rw [convertVPL, convertVPL, hroot]

/-- C4: every VPL produced by converting a light path carries the product
of edge.weight times edge.rr_weight along the edges from the root,
multiplied by the captured root flux, and the root emitter's own VPL
carries the captured flux itself: conversion started at a light root with
initial accumulator Color::one equals the explicit radiance walk.  The
flux is captured exactly once at root sampling time, by the single
emitter position sampling call of init, and conversion consumes no
sampler. -/
theorem vpl_radiance_product :
    (∀ (path : APath) (F : Color) (fuel vid : ℕ) (prodC : Color),
      convertVPL path F fuel vid (F * prodC) = vplRadianceWalk path F fuel vid prodC) ∧
    (∀ (path : APath) (F : Color) (fuel root : ℕ) (eo : Option ℕ),
      path.vertices.get? root = some (.light eo) →
      convertVPL path F (fuel + 1) root Color.one =
        vplRadianceWalk path F (fuel + 1) root Color.one) ∧
    (∀ (em : EmitterSampler) (s : StreamSampler),
      techniqueVPLInit em s =
        (((em.randomSampleEmitterPosition (s.stream s.pos) (s.stream (s.pos + 1))
            (s.stream (s.pos + 2), s.stream (s.pos + 3))).2.2.2, Color.one),
         ⟨s.stream, s.pos + 4⟩)) := by
  refine ⟨fun path F => convertVPL_eq_walk path F, ?_, fun em s => rfl⟩
  intro path F fuel root eo hroot
  rw [convertVPL_light_flux path F fuel root eo Color.one (F * Color.one) hroot]
  exact convertVPL_eq_walk path F (fuel + 1) root Color.one

/-- C4 witness: the theorem applied at a concrete three-vertex light path
with captured flux (2,3,4). -/
theorem vpl_radiance_product_witness :
    convertVPL vplWitnessPath ⟨2, 3, 4⟩ 3 0 Color.one =
      vplRadianceWalk vplWitnessPath ⟨2, 3, 4⟩ 3 0 Color.one ∧
    vplWitnessPath.vertices.get? 0 = some (.light (some 0)) :=
  ⟨vpl_radiance_product.2.1 vplWitnessPath ⟨2, 3, 4⟩ 2 0 (some 0) rfl, rfl⟩

/-- Helper: the sum of the pdfs returned by the strategies equals the sum
in which absent pdfs contribute zero. -/
theorem filterMap_id_sum (pdfs : List (Option ℚ)) :
    (pdfs.filterMap id).sum = optPdfSum pdfs := by
  induction pdfs with
  | nil => rfl
  | cons h t ih =>
      cases h with
      | none =>
          simp only [optPdfSum, List.filterMap_cons, List.map_cons, List.sum_cons] at ih ⊢
          simpa using ih
      | some p =>
          simp only [optPdfSum, List.filterMap_cons, List.map_cons, List.sum_cons,
            id_eq] at ih ⊢
          simp [ih]

/-- Helper: dividing every element of a list by T and summing equals the
sum divided by T. -/
theorem sum_map_div (l : List ℚ) (T : ℚ) :
    (l.map (fun p => p / T)).sum = l.sum / T := by
  induction l with
  | nil => simp
  | cons h t ih => simp [ih, add_div]

/-- C5: the weight the evaluator applies to a solid-angle edge is the
edge's pdf divided by the sum over all strategies of the pdf each assigns
to the edge (absent pdfs contributing zero), and for an edge producible
by the strategies returning a pdf (all positive, at least one present),
these balance-heuristic weights sum to 1. -/
theorem mis_balance_heuristic :
    (∀ (pdfs : List (Option ℚ)) (v : ℚ),
      evalEdgeWeight pdfs (.solidAngle v) = v / optPdfSum pdfs) ∧
    (∀ pdfs : List (Option ℚ),
      pdfs.filterMap id ≠ [] →
      (∀ p ∈ pdfs.filterMap id, 0 < p) →
      ((pdfs.filterMap id).map (fun p => misWeight p pdfs)).sum = 1) := by
  constructor
  · intro pdfs v
    rfl
  · intro pdfs hne hpos
    have hT : 0 < optPdfSum pdfs := by
      rw [← filterMap_id_sum]
      exact List.sum_pos _ hpos hne
    have h1 : ((pdfs.filterMap id).map (fun p => misWeight p pdfs)).sum
        = (pdfs.filterMap id).sum / optPdfSum pdfs := sum_map_div _ _
    rw [h1, filterMap_id_sum]
    exact div_self (ne_of_gt hT)

/-- C5 witness: the theorem applied to the strategy pdf list
[some 1/2, none, some 3/2], whose two weights 1/4 and 3/4 sum to 1. -/
theorem mis_balance_heuristic_witness :
    (([some (1 / 2), none, some (3 / 2)] : List (Option ℚ)).filterMap id ≠ []) ∧
    ((([some (1 / 2), none, some (3 / 2)] : List (Option ℚ)).filterMap id).map
      (fun p => misWeight p [some (1 / 2), none, some (3 / 2)])).sum = 1 :=
  ⟨by simp,
   mis_balance_heuristic.2 [some (1 / 2), none, some (3 / 2)] (by simp)
     (by
       intro p hp
       fin_cases hp <;> norm_num)⟩

/-- C10 witness: the theorem applied at a concrete scene where every trace
misses, with depth bound 3 and fuel 2. -/
theorem from_sensor_invariants_witness :
    ∃ (p : PathS) (s2 : StreamSampler),
      fromSensor missScene 0 0 halfSampler (some 3) 2 = some (p, s2) ∧
      p.vertices.head? = some (PVertex.newSensorVertex
        ((0 : ℚ) + halfSampler.stream halfSampler.pos,
         (0 : ℚ) + halfSampler.stream (halfSampler.pos + 1)) missScene.cameraPos) ∧
      (p.vertices.length = p.edges.length + 1 ∨ p.vertices.length = p.edges.length) ∧
      p.vertices.length ≤ 3 :=
  from_sensor_invariants.1 missScene 0 0 halfSampler 3 2 (by omega) (by omega)

end Rustlight
